import Mathlib

/-!
Verification of the DOE consistency-experiment core

Shallow embedding of the DOE repository (factorial / RCBD AI-consistency
experiments) and proofs about it.  The embedding follows the Python sources:

* `src/2kfactorial/consistency_analyzer.py` — text normalization (`clean_text`),
  pairwise similarity aggregation (`compute_bert_multilingual_similarity`),
  per-unit scoring loop (`analyze_consistency_for_experiment`);
* `src/2kfactorial/experiment_design.py` — factor declarations and the design
  generators (`generate_all_factor_combinations`, `generate_full_factorial_design`,
  `generate_subset_design`);
* `src/2kfactorial/factorial_analyzer.py` — `analyze_with_category_as_block`
  with its group-mean fallback;
* `src/rcbd/rcbd_analyzer.py` — `perform_rcbd_analysis` (no fallback);
* `src/2kfactorial/power_analysis.py` — effect sizes (`calculate_effect_sizes`)
  and the sample-size formula in `power_analysis_for_factors`.

Python machine floats are modelled by `ℚ` together with explicit constructors
for the IEEE non-finite values where the code can produce them; external
collaborators (the BERTScore backend, `statsmodels.ols`, `scipy.stats.norm.ppf`)
enter as explicit parameters, matching the spec's injected-collaborator view.
All definitions are structurally recursive so that concrete instances evaluate
inside the kernel.
-/

/-! Section: Text normalization: `ConsistencyAnalyzer.clean_text`

The Python code is

```
text = text.replace('\n', ' ')
text = re.sub(r'\*\*(.*?)\*\*', r'\1', text)  -- strip emphasis
text = re.sub(r'\d+\.\s*', '', text)          -- strip list numbering
text = re.sub(r'\s+', ' ', text)              -- collapse whitespace
return text.strip()
```

Each `re.sub` scans left to right, replacing the leftmost match and resuming
immediately after it.  The character classes `\s` and `\d` are modelled by their
ASCII parts (`' '`, tab, `\n`, `\r`, `\x0b`, `\x0c`, resp. `'0'..'9'`), which is
where all experiment text lives.
-/

/-- Python's `\s` class, restricted to its ASCII members. -/
def wsChar (c : Char) : Bool :=
  c = ' ' ∨ c = '\t' ∨ c = '\n' ∨ c = '\r' ∨ c = '\x0b' ∨ c = '\x0c'

/-- First normalization step: `text.replace('\n', ' ')`. -/
def replaceNewlines (l : List Char) : List Char :=
  l.map fun c => if c = '\n' then ' ' else c

mutual
/-- Scanner for `re.sub(r'\*\*(.*?)\*\*', r'\1', text)`, outside a match.
On `**` we tentatively open a group and switch to `boldIn`; otherwise the
character is emitted unchanged. -/
def boldOut : List Char → List Char
  | [] => []
  | [c] => [c]
  | c1 :: c2 :: rest =>
    if c1 = '*' ∧ c2 = '*' then boldIn [] rest
    else c1 :: boldOut (c2 :: rest)

/-- Inside a tentatively opened `**` group, buffering the (reversed) group
content.  The lazy `(.*?)` stops at the first later `**`; if the input ends
without a closing `**`, the regex engine finds no match at (or after) the
opening position, so the consumed text is emitted unchanged. -/
def boldIn (buf : List Char) : List Char → List Char
  | [] => '*' :: '*' :: buf.reverse
  | [c] => '*' :: '*' :: (c :: buf).reverse
  | c1 :: c2 :: rest =>
    if c1 = '*' ∧ c2 = '*' then buf.reverse ++ boldOut rest
    else boldIn (c1 :: buf) (c2 :: rest)
end

mutual
/-- Scanner for `re.sub(r'\d+\.\s*', '', text)`.  `pend` is the (reversed) run
of digits read so far.  A run immediately followed by `'.'` is a match: the
run, the dot and all following whitespace are dropped and scanning resumes.
A run followed by anything else matches nowhere (no proper sub-run ends in a
dot either), so it is emitted unchanged. -/
def digitsA (pend : List Char) : List Char → List Char
  | [] => pend.reverse
  | c :: rest =>
    if c.isDigit then digitsA (c :: pend) rest
    else if pend.isEmpty then c :: digitsA [] rest
    else if c = '.' then digitsSkipWs rest
    else pend.reverse ++ (c :: digitsA [] rest)

/-- Consuming the `\s*` tail of a `\d+\.\s*` match, then resuming the scan. -/
def digitsSkipWs : List Char → List Char
  | [] => []
  | c :: rest =>
    if wsChar c then digitsSkipWs rest
    else if c.isDigit then digitsA [c] rest
    else c :: digitsA [] rest
end

/-- Scanner for `re.sub(r'\s+', ' ', text)`: each maximal whitespace run
becomes a single space.  `prevWs` records whether the previous character was
part of a run whose space has already been emitted. -/
def collapseWs : Bool → List Char → List Char
  | _, [] => []
  | prevWs, c :: rest =>
    match wsChar c, prevWs with
    | true, true => collapseWs true rest
    | true, false => ' ' :: collapseWs true rest
    | false, _ => c :: collapseWs false rest

/-- Python `str.strip()`, left part: drop leading whitespace. -/
def lstrip (l : List Char) : List Char := l.dropWhile wsChar

/-- Python `str.strip()`, right part: drop trailing whitespace. -/
def rstrip (l : List Char) : List Char := (l.reverse.dropWhile wsChar).reverse

/-- Embedding of `ConsistencyAnalyzer.clean_text` on character lists: the four `re.sub`
passes followed by `strip()`, in source order. -/
def cleanChars (l : List Char) : List Char :=
  rstrip (lstrip (collapseWs false (digitsA [] (boldOut (replaceNewlines l)))))

/-- Embedding of `ConsistencyAnalyzer.clean_text` (identical in
`src/2kfactorial/consistency_analyzer.py` and `src/rcbd/consistency_analyzer.py`). -/
def clean_text (s : String) : String := String.mk (cleanChars s.data)

/-! Section: Pairwise consistency scoring

`ConsistencyAnalyzer.compute_bert_multilingual_similarity` cleans every
response, iterates `itertools.combinations(cleaned_responses, 2)` calling the
BERTScore backend `score([resp2], [resp1], ...)` on each pair, and returns
`np.mean(similarities)`; any backend exception is caught and turns the whole
result into `None`.  The backend is the external collaborator, passed here as
`sim : String → String → Except String ℚ` (`sim candidate reference`). -/

/-- Embedding of `itertools.combinations(l, 2)` in iteration order: all pairs `(l[i], l[j])`
with `i < j`, ordered by `i`, then `j`. -/
def pairsOf {α : Type} : List α → List (α × α)
  | [] => []
  | x :: xs => (xs.map fun y => (x, y)) ++ pairsOf xs

/-- The similarity loop body: `score([resp2], [resp1], ...)` for each pair
`(resp1, resp2)`, in order; the first backend failure aborts the loop (the
surrounding `try` catches it). -/
def simsOf (sim : String → String → Except String ℚ) :
    List (String × String) → Except String (List ℚ)
  | [] => .ok []
  | (a, b) :: rest =>
    match sim b a with
    | .error e => .error e
    | .ok v =>
      match simsOf sim rest with
      | .error e => .error e
      | .ok vs => .ok (v :: vs)

/-- Embedding of `ConsistencyAnalyzer.compute_bert_multilingual_similarity`: `None` for
fewer than two responses; otherwise the mean pairwise similarity of the
cleaned responses, or `None` if the backend failed on any pair. -/
def compute_bert_multilingual_similarity
    (sim : String → String → Except String ℚ) (response_list : List String) :
    Option ℚ :=
  if response_list.length < 2 then none
  else
    match simsOf sim (pairsOf (response_list.map clean_text)) with
    | .error _ => none
    | .ok similarities => some (similarities.sum / (similarities.length : ℚ))

/-- One entry of `experimental_data` as consumed by
`analyze_consistency_for_experiment` (fields actually read by the loop). -/
structure ExperimentUnit where
  condition_id : ℕ
  category : String
  responses : List String
deriving DecidableEq, Repr

/-- The same entry after the loop stored `data['bert_multilingual_similarity']`. -/
structure ScoredUnit where
  condition_id : ℕ
  category : String
  responses : List String
  bert_multilingual_similarity : Option ℚ
deriving DecidableEq, Repr

/-- Embedding of `ConsistencyAnalyzer.analyze_consistency_for_experiment`.  For each unit
with at least two responses the similarity is computed and stored, and then
logged with `f"{bert_multilingual_similarity:.4f}"`; when the stored value is
`None` (backend failure) that format raises `TypeError`, which nothing
catches, so the whole call fails there.  Units with fewer than two responses
store `None` and are logged without the `:.4f` format, so they pass through. -/
def analyze_consistency_for_experiment
    (sim : String → String → Except String ℚ) :
    List ExperimentUnit → Except String (List ScoredUnit)
  | [] => .ok []
  | d :: rest =>
    if 2 ≤ d.responses.length then
      match compute_bert_multilingual_similarity sim d.responses with
      | none => .error "TypeError: unsupported format string passed to NoneType.__format__"
      | some v =>
        match analyze_consistency_for_experiment sim rest with
        | .error e => .error e
        | .ok out => .ok (⟨d.condition_id, d.category, d.responses, some v⟩ :: out)
    else
      match analyze_consistency_for_experiment sim rest with
      | .error e => .error e
      | .ok out => .ok (⟨d.condition_id, d.category, d.responses, none⟩ :: out)

/-! Section: Experiment design: `src/2kfactorial/experiment_design.py` -/

/-- The module-level `FACTORS` dict, in declaration (= iteration) order. -/
def FACTORS : List (String × List String) :=
  [("prompt_language", ["korean", "english"]),
   ("model", ["gpt-3.5-turbo", "gpt-4o-mini"]),
   ("role_assignment", ["with_role", "no_role"]),
   ("explicitness", ["high", "low"])]

/-- The declared level list of a factor (`FACTORS[name]`). -/
def levelsOf (name : String) : List String :=
  ((FACTORS.find? fun kv => kv.1 = name).map Prod.snd).getD []

/-- The module-level `QUESTION_BLOCKS` dict: three categories of seven base
questions each, in declaration (= iteration) order. -/
def QUESTION_BLOCKS : List (String × List String) :=
  [("인성",
    ["어려움에 처한 친구를 도와야 하는 이유는 무엇인가?",
     "정의로운 사회를 만들기 위해 개인이 해야 할 일은 무엇인가?",
     "윤리적 딜레마 상황에서 올바른 선택을 하는 기준은 무엇인가?",
     "타인과의 갈등 상황에서 화해를 이루는 방법은 무엇인가?",
     "자신의 실수를 인정하고 책임지는 것의 중요성은 무엇인가?",
     "타인에 대한 배려와 공감이 중요한 이유는 무엇인가?",
     "도덕적 용기를 발휘해야 하는 상황과 그 방법은 무엇인가?"]),
   ("창의성",
    ["새로운 아이디어를 생각해내는 가장 효과적인 방법은 무엇인가?",
     "창의적 문제해결을 위해 어떤 사고방식이 필요한가?",
     "혁신적인 솔루션을 개발하는 과정에서 중요한 요소는 무엇인가?",
     "기존의 관습을 뛰어넘는 발상을 하는 방법은 무엇인가?",
     "다양한 관점에서 문제를 바라보는 능력을 기르는 방법은 무엇인가?",
     "창의성을 저해하는 요소들을 극복하는 방법은 무엇인가?",
     "협업을 통해 창의적 아이디어를 발전시키는 방법은 무엇인가?"]),
   ("논리적추론",
    ["복잡한 문제를 체계적으로 분석하는 방법은 무엇인가?",
     "논리적 결론에 도달하기 위해 필요한 사고 과정은 무엇인가?",
     "증거와 논리를 바탕으로 타당한 주장을 펼치는 방법은 무엇인가?",
     "다양한 정보를 종합하여 올바른 판단을 내리는 방법은 무엇인가?",
     "논리적 오류를 피하고 합리적 사고를 하는 방법은 무엇인가?",
     "가설을 설정하고 검증하는 체계적인 방법은 무엇인가?",
     "비판적 사고를 통해 정보의 신뢰성을 평가하는 방법은 무엇인가?"])]

/-- A factor combination: the dict built by `dict(zip(factor_names, combo))`;
it always carries exactly one level per declared factor, so it is represented
with one field per factor, in declaration order. -/
structure FactorCombination where
  prompt_language : String
  model : String
  role_assignment : String
  explicitness : String
deriving DecidableEq, Repr

/-- Embedding of `itertools.product(*factor_values)` over an arbitrary sub-list of
`FACTORS`, as `(name, level)` assignment lists: the first factor varies
slowest, the last fastest, levels in declared order. -/
def crossLevels : List (String × List String) → List (List (String × String))
  | [] => [[]]
  | (n, ls) :: rest => ls.flatMap fun v => (crossLevels rest).map fun tail => (n, v) :: tail

/-- Embedding of `dict.update` / `dict.__setitem__` for one factor assignment.  Only
declared factor names ever reach this (the callers draw names from `FACTORS`),
so the fall-through branch is inert. -/
def setFactor (c : FactorCombination) (name level : String) : FactorCombination :=
  if name = "prompt_language" then { c with prompt_language := level }
  else if name = "model" then { c with model := level }
  else if name = "role_assignment" then { c with role_assignment := level }
  else if name = "explicitness" then { c with explicitness := level }
  else c

/-- Build the combination dict from a full assignment list (one entry per
declared factor), starting from a dummy record that every field of is
overwritten. -/
def comboOfAssignment (assignment : List (String × String)) : FactorCombination :=
  assignment.foldl (fun c nv => setFactor c nv.1 nv.2) ⟨"", "", "", ""⟩

/-- Embedding of `generate_all_factor_combinations`: `itertools.product` over the declared
levels of the four declared factors, each result zipped back into a dict. -/
def generate_all_factor_combinations : List FactorCombination :=
  (crossLevels FACTORS).map comboOfAssignment

/-- One element of the `experimental_conditions` list built by the design
generators. -/
structure Condition where
  condition_id : ℕ
  category : String
  base_question : String
  factor_combination : FactorCombination
deriving DecidableEq, Repr

/-- The `condition_id` counter: ids assigned sequentially from `start` in
emission order. -/
def numberFrom : ℕ → List (String × String × FactorCombination) → List Condition
  | _, [] => []
  | i, (cat, q, fc) :: rest => ⟨i, cat, q, fc⟩ :: numberFrom (i + 1) rest

/-- Embedding of `generate_full_factorial_design`: every factor combination crossed with
every `(category, question)` of `QUESTION_BLOCKS`, ids counted from 1. -/
def generate_full_factorial_design : List Condition :=
  numberFrom 1 (generate_all_factor_combinations.flatMap fun combination =>
    QUESTION_BLOCKS.flatMap fun blk => blk.2.map fun question => (blk.1, question, combination))

/-- The hard-coded `factor_defaults` dict of `generate_subset_design`. -/
def factor_defaults : FactorCombination :=
  { prompt_language := "korean", model := "gpt-4o-mini"
    role_assignment := "no_role", explicitness := "low" }

/-- Embedding of the selection expression
`questions[:questions_per_category] if questions_per_category else questions`:
both `None` and `0` are falsy in Python, so truncation happens only for a
positive limit. -/
def selectQuestions (questions_per_category : Option ℕ) (questions : List String) :
    List String :=
  match questions_per_category with
  | none => questions
  | some n => if n = 0 then questions else questions.take n

/-- The emission loops of `generate_subset_design`, given the already-filtered
`test_factors` sub-dict: cross the test factors, overlay each assignment on
the defaults, and emit every selected question of every category, ids counted
from 1. -/
def subsetConditions (test_factors : List (String × List String))
    (questions_per_category : Option ℕ) : List Condition :=
  numberFrom 1 ((crossLevels test_factors).flatMap fun assignment =>
    QUESTION_BLOCKS.flatMap fun blk =>
      (selectQuestions questions_per_category blk.2).map fun question =>
        (blk.1, question,
         assignment.foldl (fun c nv => setFactor c nv.1 nv.2) factor_defaults))

/-- Embedding of `generate_subset_design(factors_to_test, questions_per_category)`:
`test_factors = {k: v for k, v in FACTORS.items() if k in factors_to_test}`
(names not declared in `FACTORS` are simply never selected), then the crossing
and emission loops. -/
def generate_subset_design (factors_to_test : List String)
    (questions_per_category : Option ℕ) : List Condition :=
  subsetConditions (FACTORS.filter fun kv => factors_to_test.contains kv.1)
    questions_per_category

/-- The truncation behaviour that §4.1 of the spec ascribes to the
`stimuli_limit` parameter, stated in the spec's own words: "truncates the
per-block stimulus list deterministically (first N in declared order)" — for
every limit `n`, including `0`.  Used only to compare `generate_subset_design`
against the spec. -/
def generate_subset_design_spec_trunc (factors_to_test : List String) (n : ℕ) :
    List Condition :=
  numberFrom 1
    ((crossLevels (FACTORS.filter fun kv => factors_to_test.contains kv.1)).flatMap
      fun assignment =>
        QUESTION_BLOCKS.flatMap fun blk =>
          (blk.2.take n).map fun question =>
            (blk.1, question,
             assignment.foldl (fun c nv => setFactor c nv.1 nv.2) factor_defaults))

/-! Section: Statistical analyzers

`FactorialAnalyzer.analyze_with_category_as_block`
(`src/2kfactorial/factorial_analyzer.py`) fits an OLS model inside `try`, and
in **both** the success and the exception branch computes main effects and
block effects from pandas group means.  `RCBDAnalyzer.perform_rcbd_analysis`
(`src/rcbd/rcbd_analyzer.py`) fits its OLS model with **no** `try`.  Model
fitting itself is `statsmodels` (external): it enters as a parameter
`fit : Except String FittedModel`, an error meaning that `ols(...).fit()` /
`anova_lm` raised. -/

/-- Abstract handle for a successfully fitted `statsmodels` result object. -/
structure FittedModel where
  info : String
deriving DecidableEq, Repr

/-- One row of the analysis `DataFrame` built by
`FactorialAnalyzer.prepare_dataframe` (null-score rows are already dropped,
so `score` is total here). -/
structure AnalysisRow where
  category : String
  prompt_language : String
  model : String
  role_assignment : String
  explicitness : String
  score : ℚ
deriving DecidableEq, Repr

/-- The column accessor for a factor (or block) name, as used in
`df.groupby(factor)`. -/
def rowColumn : String → AnalysisRow → String
  | "category" => AnalysisRow.category
  | "prompt_language" => AnalysisRow.prompt_language
  | "model" => AnalysisRow.model
  | "role_assignment" => AnalysisRow.role_assignment
  | _ => AnalysisRow.explicitness

/-- Insertion sort by `≤` on strings: pandas `groupby` yields its groups in
sorted key order. -/
def insertSorted (x : String) : List String → List String
  | [] => [x]
  | y :: ys => if x ≤ y then x :: y :: ys else y :: insertSorted x ys

/-- Sort a list of strings (ascending). -/
def sortStrings : List String → List String
  | [] => []
  | x :: xs => insertSorted x (sortStrings xs)

/-- The distinct keys that `df.groupby(col)` iterates, in sorted order. -/
def groupKeys (col : String) (df : List AnalysisRow) : List String :=
  sortStrings ((df.map (rowColumn col)).dedup)

/-- Mean of a pandas series (`NaN`, modelled `none`, when empty). -/
def seriesMean (l : List ℚ) : Option ℚ :=
  if l.length = 0 then none else some (l.sum / (l.length : ℚ))

/-- Sample variance of a pandas series (`ddof=1`; `NaN`, modelled `none`, when
fewer than two values).  Pandas reports its square root as `std`; the variance
carries the same information exactly, so the embedding stores it instead of
the irrational root. -/
def seriesVar (l : List ℚ) : Option ℚ :=
  if l.length < 2 then none
  else some ((l.map fun x => (x - l.sum / (l.length : ℚ)) ^ 2).sum / ((l.length : ℚ) - 1))

/-- One `agg(['mean', 'std', 'count'])` line of a `groupby`: level, mean,
variance (for `std`), count. -/
structure GroupLine where
  level : String
  mean : Option ℚ
  var : Option ℚ
  count : ℕ
deriving DecidableEq, Repr

/-- Embedding of `df.groupby(col)[response].agg(['mean', 'std', 'count'])`. -/
def groupStats (col : String) (df : List AnalysisRow) : List GroupLine :=
  (groupKeys col df).map fun level =>
    let scores := (df.filter fun r => rowColumn col r = level).map AnalysisRow.score
    ⟨level, seriesMean scores, seriesVar scores, scores.length⟩

/-- Embedding of `factor_means['mean'].max() - factor_means['mean'].min()` (`none` models
the `NaN` this computation yields on an empty frame). -/
def effectSizeOfLines (lines : List GroupLine) : Option ℚ :=
  match lines.filterMap GroupLine.mean with
  | [] => none
  | m :: ms => some (ms.foldl max m - ms.foldl min m)

/-- Per-factor result of `FactorialAnalyzer._analyze_main_effects`. -/
structure MainEffect where
  factor : String
  groups : List GroupLine
  effect_size : Option ℚ
deriving DecidableEq, Repr

/-- Embedding of `FactorialAnalyzer._analyze_main_effects(df, factors, response_var)`:
group means, stds and counts plus the max-minus-min effect size, for each of
the four declared factors. -/
def analyze_main_effects (df : List AnalysisRow) : List MainEffect :=
  ["prompt_language", "model", "role_assignment", "explicitness"].map fun factor =>
    ⟨factor, groupStats factor df, effectSizeOfLines (groupStats factor df)⟩

/-- Result of `FactorialAnalyzer._analyze_block_effects`: per-category means
and the block effect size. -/
structure BlockEffect where
  block_means : List GroupLine
  block_effect_size : Option ℚ
deriving DecidableEq, Repr

/-- Embedding of `FactorialAnalyzer._analyze_block_effects(df, response_var)`. -/
def analyze_block_effects (df : List AnalysisRow) : BlockEffect :=
  ⟨groupStats "category" df, effectSizeOfLines (groupStats "category" df)⟩

/-- The `results` dict of `analyze_with_category_as_block`. -/
structure FactorialBlockResult where
  model : Option FittedModel
  main_effects : List MainEffect
  block_effects : BlockEffect
  error : Option String
deriving DecidableEq, Repr

/-- Embedding of `FactorialAnalyzer.analyze_with_category_as_block`: on fit success the
main/block effects are computed inside the `try`; on any fit exception the
`except` branch recomputes exactly the same group-mean summaries and records
the error string, so the call itself always returns a results dict. -/
def analyze_with_category_as_block (fit : Except String FittedModel)
    (df : List AnalysisRow) : FactorialBlockResult :=
  match fit with
  | .ok m =>
    { model := some m, main_effects := analyze_main_effects df
      block_effects := analyze_block_effects df, error := none }
  | .error e =>
    { model := none, main_effects := analyze_main_effects df
      block_effects := analyze_block_effects df, error := some e }

/-- One row of the RCBD analysis `DataFrame`
(`RCBDAnalyzer.prepare_dataframe`). -/
structure RcbdRow where
  category : String
  framing_level : String
  score : ℚ
deriving DecidableEq, Repr

/-- Embedding of `df.groupby(col)[response].agg(['mean', 'std', 'count'])` for the RCBD
frame (`col` selects `framing_level` or `category`). -/
def rcbdGroupStats (key : RcbdRow → String) (df : List RcbdRow) : List GroupLine :=
  (sortStrings ((df.map key).dedup)).map fun level =>
    let scores := (df.filter fun r => key r = level).map RcbdRow.score
    ⟨level, seriesMean scores, seriesVar scores, scores.length⟩

/-- The `results` dict of `perform_rcbd_analysis` (the fields computed by pure
pandas arithmetic; the ANOVA table itself stays inside the fitted model). -/
structure RcbdResult where
  model : FittedModel
  framing_means : List GroupLine
  category_means : List GroupLine
deriving DecidableEq, Repr

/-- Embedding of `RCBDAnalyzer.perform_rcbd_analysis`: `ols(...).fit()` and `anova_lm` run
with no `try/except`, so a fit failure propagates to the caller and nothing is
returned; only on success are the group means assembled into a results dict. -/
def perform_rcbd_analysis (fit : Except String FittedModel) (df : List RcbdRow) :
    Except String RcbdResult :=
  match fit with
  | .error e => .error e
  | .ok m =>
    .ok { model := m
          framing_means := rcbdGroupStats RcbdRow.framing_level df
          category_means := rcbdGroupStats RcbdRow.category df }

/-! Section: Power analysis: `src/2kfactorial/power_analysis.py`

`calculate_effect_sizes` computes, for each two-level factor, a Cohen's d from
the two pandas score groups; `power_analysis_for_factors` computes the
required per-group sample size from `scipy.stats.norm.ppf` quantiles.  All
arithmetic is IEEE floats.  A Cohen's d value is represented exactly: the
division by zero and NaN-propagation cases get their own constructors, and the
finite case `|mean₁ − mean₂| / sqrt(pooledVar)` is recorded by its two exact
rational determinants (the mean difference and the pooled variance), because
the square root itself is irrational. -/

/-- The value of the `cohens_d` float computed by `calculate_effect_sizes`:
`nan` (invalid arithmetic), `posInf` (positive division by zero), or the
finite value `|meanDiff| / sqrt(pooledVar)` with `pooledVar > 0`. -/
inductive CohensD where
  | nan : CohensD
  | posInf : CohensD
  | finite (meanDiff pooledVar : ℚ) : CohensD
deriving DecidableEq, Repr

/-- Embedding of `((len(group1)-1)*group1.var() + (len(group2)-1)*group2.var())
/ (len(group1)+len(group2)-2)` — `NaN` (none) as soon as either `var()` is
`NaN`, i.e. when either group has fewer than two observations.  When both
variances exist the denominator is at least 2. -/
def pooledVar (group1 group2 : List ℚ) : Option ℚ :=
  match seriesVar group1, seriesVar group2 with
  | some v1, some v2 =>
    some ((((group1.length : ℚ) - 1) * v1 + ((group2.length : ℚ) - 1) * v2)
      / ((group1.length : ℚ) + (group2.length : ℚ) - 2))
  | _, _ => none

/-- The Cohen's d computation inlined in `calculate_effect_sizes`:
`abs(group1.mean() - group2.mean()) / pooled_std` in float arithmetic.
`var()` of a group with fewer than two observations is `NaN`, which propagates
to a `nan` result; a zero pooled variance makes `pooled_std` zero, and float
division then gives `+inf` (or `nan` when the means also coincide).  No
exception is ever raised. -/
def cohens_d (group1 group2 : List ℚ) : CohensD :=
  match pooledVar group1 group2, seriesMean group1, seriesMean group2 with
  | some pv, some m1, some m2 =>
    if pv = 0 then (if m1 = m2 then .nan else .posInf)
    else .finite |m1 - m2| pv
  | _, _, _ => .nan

/-- The sample-size formula of `power_analysis_for_factors`:
`n_per_group = ((z_alpha + z_beta) / cohens_d) ** 2`, where
`z_alpha = norm.ppf(1 - alpha/2)` and `z_beta = norm.ppf(power)` come from
`scipy` (external, so the two quantiles are parameters here) and `d` is the
factor's Cohen's d. -/
def required_n_per_group (z_alpha z_beta d : ℚ) : ℚ :=
  ((z_alpha + z_beta) / d) ^ 2

/-! Section: Theorems about the design generators (claims C2, C5, C9, C10) -/

/-- Rank of a factor combination in the declared enumeration order: factor
declaration order outer-to-inner, level declaration order within each factor
(each summand is the position of the assigned level among the factor's
declared levels). -/
def comboRank (c : FactorCombination) : ℕ :=
  8 * (levelsOf "prompt_language").indexOf c.prompt_language
    + 4 * (levelsOf "model").indexOf c.model
    + 2 * (levelsOf "role_assignment").indexOf c.role_assignment
    + (levelsOf "explicitness").indexOf c.explicitness

/-- **C5**: `generate_all_factor_combinations` over the four declared
two-level factors yields exactly 16 combinations with no duplicates, each
assigning a declared level to each declared factor, covering every level
combination exactly once (membership is equivalent to each field being a
declared level), in stable declared order (the i-th emitted combination has
rank i, factor declaration order outer-to-inner, level declaration order
within each factor). -/
theorem generate_all_factor_combinations_full_factorial :
    generate_all_factor_combinations.length = 16
    ∧ generate_all_factor_combinations.Nodup
    ∧ (∀ c : FactorCombination,
        c ∈ generate_all_factor_combinations ↔
          c.prompt_language ∈ levelsOf "prompt_language" ∧ c.model ∈ levelsOf "model"
            ∧ c.role_assignment ∈ levelsOf "role_assignment"
            ∧ c.explicitness ∈ levelsOf "explicitness")
    ∧ (∀ i : Fin generate_all_factor_combinations.length,
        comboRank (generate_all_factor_combinations.get i) = i.val) := by
  have fwd : ∀ c ∈ generate_all_factor_combinations,
      c.prompt_language ∈ levelsOf "prompt_language" ∧ c.model ∈ levelsOf "model"
        ∧ c.role_assignment ∈ levelsOf "role_assignment"
        ∧ c.explicitness ∈ levelsOf "explicitness" := by decide
  refine ⟨by decide, by decide, fun c => ⟨fun hc => fwd c hc, fun hc => ?_⟩, by decide⟩
  obtain ⟨pl, mo, ra, ex⟩ := c
  have e1 : levelsOf "prompt_language" = ["korean", "english"] := by decide
  have e2 : levelsOf "model" = ["gpt-3.5-turbo", "gpt-4o-mini"] := by decide
  have e3 : levelsOf "role_assignment" = ["with_role", "no_role"] := by decide
  have e4 : levelsOf "explicitness" = ["high", "low"] := by decide
  rw [e1, e2, e3, e4] at hc
  simp only [List.mem_cons, List.not_mem_nil, or_false] at hc
  obtain ⟨h1, h2, h3, h4⟩ := hc
  rcases h1 with rfl | rfl <;> rcases h2 with rfl | rfl <;>
    rcases h3 with rfl | rfl <;> rcases h4 with rfl | rfl <;> decide

set_option maxRecDepth 100000 in
/-- **C2**: crossing the full factorial with the stimuli
(`generate_full_factorial_design`) over the 16 declared factor combinations,
3 question blocks of 7 stimuli each, emits exactly 336 experimental
conditions whose identifiers are exactly the contiguous 1-based sequence
1..336 in emission order. -/
theorem generate_full_factorial_design_336_sequential_ids :
    generate_all_factor_combinations.length = 16
    ∧ QUESTION_BLOCKS.map (fun blk => blk.2.length) = [7, 7, 7]
    ∧ generate_full_factorial_design.length = 336
    ∧ generate_full_factorial_design.map Condition.condition_id = List.range' 1 336 := by
  refine ⟨by decide, by decide, by decide, by decide⟩

/-- Membership in a filtered list is unchanged for elements the filter keeps
(helper for the undeclared-factor analysis of `generate_subset_design`). -/
lemma contains_filter_of_pos {p : String → Bool} {a : String} (hp : p a = true)
    (l : List String) : (l.filter p).contains a = l.contains a := by
  induction l with
  | nil => rfl
  | cons x xs ih =>
    by_cases hx : p x = true
    · simp only [List.filter_cons_of_pos hx, List.contains_cons, ih]
    · have hxa : (a == x) = false := by
        rcases Bool.eq_false_or_eq_true (a == x) with h | h
        · exact absurd (by rw [← eq_of_beq h]; exact hp) hx
        · exact h
      simp only [List.filter_cons_of_neg hx, List.contains_cons, hxa,
        Bool.false_or, ih]

/-- **C9** (amended): `generate_subset_design` performs no validation at all.
A name in `factors_to_test` that is not declared in `FACTORS` is silently
ignored — the crossed set is the intersection with the declared factors, so
filtering undeclared names out of the argument never changes the result — and
the hard-coded fixed defaults are declared levels of their factors, so no
invalid-default situation can arise.  No `ConfigurationError` exists in the
code, and the function is total. -/
theorem generate_subset_design_silently_ignores_undeclared
    (factors_to_test : List String) (questions_per_category : Option ℕ) :
    generate_subset_design factors_to_test questions_per_category
      = generate_subset_design
          (factors_to_test.filter fun n => (FACTORS.map Prod.fst).contains n)
          questions_per_category
    ∧ factor_defaults.prompt_language ∈ levelsOf "prompt_language"
    ∧ factor_defaults.model ∈ levelsOf "model"
    ∧ factor_defaults.role_assignment ∈ levelsOf "role_assignment"
    ∧ factor_defaults.explicitness ∈ levelsOf "explicitness" := by
  refine ⟨?_, by decide, by decide, by decide, by decide⟩
  unfold generate_subset_design
  congr 1
  apply List.filter_congr
  intro kv hkv
  have hdecl : ((FACTORS.map Prod.fst).contains kv.1) = true := by
    simp only [FACTORS, List.mem_cons, List.not_mem_nil, or_false] at hkv
    rcases hkv with rfl | rfl | rfl | rfl <;> decide
  exact (contains_filter_of_pos hdecl factors_to_test).symm

/-- **C9** (counterexample): calling `generate_subset_design` with the
undeclared factor name `"context_provision"` does not fail with any error; it
silently returns the same 21-condition design (one all-defaults combination ×
3 categories × 7 questions) as an empty `factors_to_test`. -/
theorem generate_subset_design_undeclared_factor_no_error :
    generate_subset_design ["context_provision"] none
      = generate_subset_design [] none
    ∧ (generate_subset_design ["context_provision"] none).length = 21 :=
  ⟨by decide, by decide⟩

/-- **C10** (amended): for every positive `questions_per_category` limit `n`,
`generate_subset_design` truncates each block's question list to its first
`n` questions in declared order before emitting units — this is exactly the
spec's truncation rule, which however fails for `n = 0` (Python's falsy `0`
disables the truncation). -/
theorem generate_subset_design_truncates_positive_limit
    (factors_to_test : List String) (n : ℕ) (h : 1 ≤ n) :
    generate_subset_design factors_to_test (some n)
      = generate_subset_design_spec_trunc factors_to_test n := by
  have hne : ¬ n = 0 := Nat.one_le_iff_ne_zero.mp h
  simp only [generate_subset_design, subsetConditions,
    generate_subset_design_spec_trunc, selectQuestions, if_neg hne]

/-- Witness for `generate_subset_design_truncates_positive_limit` at the
concrete limit 2. -/
theorem generate_subset_design_truncates_witness :
    generate_subset_design ["model"] (some 2)
      = generate_subset_design_spec_trunc ["model"] 2 :=
  generate_subset_design_truncates_positive_limit ["model"] 2 (by decide)

/-- **C10** (counterexample): with `stimuli_limit = 0` the per-block stimulus
lists are NOT truncated to their first 0 elements: all 42 conditions (2
levels × 3 categories × 7 questions) are emitted, whereas the spec's
truncation rule would emit none. -/
theorem generate_subset_design_zero_limit_uses_all_stimuli :
    (generate_subset_design ["prompt_language"] (some 0)).length = 42
    ∧ generate_subset_design ["prompt_language"] (some 0)
        ≠ generate_subset_design_spec_trunc ["prompt_language"] 0
    ∧ (generate_subset_design_spec_trunc ["prompt_language"] 0).length = 0 :=
  ⟨by decide, by decide, by decide⟩

/-! Section: Theorems about power analysis (claims C6, C7) -/

/-- **C7** (counterexample): with the standard normal quantiles
`z_alpha = norm.ppf(0.975) ≈ 1.9600` and `z_beta = norm.ppf(0.8) ≈ 0.8416`,
the coded formula returns about 12.26 per group at `d = 0.8` — not a value of
approximately 26: the code's closed form lacks the factor 2 of the two-sample
formula `n = 2((z_alpha + z_beta)/d)^2`. -/
theorem required_n_per_group_not_26 :
    12 < required_n_per_group 1.96 0.8416 0.8
    ∧ required_n_per_group 1.96 0.8416 0.8 < 13 := by
  constructor <;> norm_num [required_n_per_group]

/-- **C7** (amended): `power_analysis_for_factors` computes the closed-form
two-sided normal approximation `n = ((z_alpha + z_beta)/d)^2` exactly as the
spec's formula states, but its value for `d = 0.8`, `alpha = 0.05`,
`target power 0.8` is ≈ 12.26 per group (for any quantile values inside
rational brackets around `norm.ppf(0.975)` and `norm.ppf(0.8)`), not ≈ 26. -/
theorem required_n_per_group_value (z_alpha z_beta : ℚ)
    (h1 : 1.9599 ≤ z_alpha) (h2 : z_alpha ≤ 1.96)
    (h3 : 0.8416 ≤ z_beta) (h4 : z_beta ≤ 0.8417) :
    12 < required_n_per_group z_alpha z_beta 0.8
    ∧ required_n_per_group z_alpha z_beta 0.8 < 12.3 := by
  unfold required_n_per_group
  have hdiv : ((z_alpha + z_beta) / 0.8) ^ 2 = (z_alpha + z_beta) ^ 2 / 0.64 := by
    rw [div_pow]; norm_num
  rw [hdiv]
  have hu : 0 ≤ (2.8017 - (z_alpha + z_beta)) * (2.8017 + (z_alpha + z_beta)) :=
    mul_nonneg (by linarith) (by linarith)
  have hl : 0 ≤ (z_alpha + z_beta - 2.8015) ^ 2 := sq_nonneg _
  constructor
  · rw [lt_div_iff₀ (by norm_num : (0 : ℚ) < 0.64)]
    nlinarith
  · rw [div_lt_iff₀ (by norm_num : (0 : ℚ) < 0.64)]
    nlinarith

/-- Witness for `required_n_per_group_value` at concrete quantile values. -/
theorem required_n_per_group_value_witness :
    12 < required_n_per_group 1.9599 0.8417 0.8
    ∧ required_n_per_group 1.9599 0.8417 0.8 < 12.3 :=
  required_n_per_group_value 1.9599 0.8417 (by norm_num) (by norm_num)
    (by norm_num) (by norm_num)

/-- **C6** (counterexample): the Cohen's d computation of
`calculate_effect_sizes` never raises anything.  With a single observation in
a group it returns the float `NaN` (pandas `var()` with `ddof=1` of one value
is `NaN`); with zero pooled variance it returns `+inf` (float division by
zero), or `NaN` when the means also coincide.  No `InsufficientDataError`
exists in the code. -/
theorem cohens_d_nan_inf_instead_of_error :
    cohens_d [(1 : ℚ)] [0, 1] = CohensD.nan
    ∧ cohens_d [(1 : ℚ), 1] [2, 2] = CohensD.posInf
    ∧ cohens_d [(0 : ℚ), 0] [0, 0] = CohensD.nan := by
  refine ⟨by norm_num [cohens_d, pooledVar, seriesVar, seriesMean], ?_, ?_⟩ <;>
    norm_num [cohens_d, pooledVar, seriesVar, seriesMean]

/-- **C6** (amended): `cohens_d` is total and never raises: when either group
has fewer than two observations the result is `NaN`; when the pooled variance
is defined it follows the standard two-sample pooled-variance formula, giving
`+inf` (or `NaN` for equal means) on zero pooled variance and the finite value
`|mean_a − mean_b| / pooled_std` otherwise. -/
theorem cohens_d_total_behavior (group1 group2 : List ℚ) :
    (group1.length < 2 ∨ group2.length < 2 → cohens_d group1 group2 = CohensD.nan)
    ∧ (∀ pv m1 m2, pooledVar group1 group2 = some pv →
        seriesMean group1 = some m1 → seriesMean group2 = some m2 →
        (pv = 0 → cohens_d group1 group2
            = (if m1 = m2 then CohensD.nan else CohensD.posInf))
        ∧ (pv ≠ 0 → cohens_d group1 group2 = CohensD.finite |m1 - m2| pv)) := by
  constructor
  · intro h
    have hnone : pooledVar group1 group2 = none := by
      unfold pooledVar seriesVar
      rcases h with h | h
      · rw [if_pos h]
      · rw [if_pos h]
        cases (if group1.length < 2 then (none : Option ℚ)
          else some ((group1.map fun x =>
            (x - group1.sum / (group1.length : ℚ)) ^ 2).sum
              / ((group1.length : ℚ) - 1))) <;> rfl
    unfold cohens_d
    rw [hnone]
  · intro pv m1 m2 hpv hm1 hm2
    constructor
    · intro h0
      unfold cohens_d
      rw [hpv, hm1, hm2]
      dsimp only
      rw [if_pos h0]
    · intro hne
      unfold cohens_d
      rw [hpv, hm1, hm2]
      dsimp only
      rw [if_neg hne]

/-- Witness for `cohens_d_total_behavior`: the undersized-group branch at
`[5]` vs `[0, 1]` and the finite branch at `[0, 0]` vs `[1, 3]` (pooled
variance 1, mean difference 2, so d = 2). -/
theorem cohens_d_total_behavior_witness :
    cohens_d [(5 : ℚ)] [0, 1] = CohensD.nan
    ∧ cohens_d [(0 : ℚ), 0] [1, 3] = CohensD.finite |(0 : ℚ) - 2| 1 :=
  ⟨(cohens_d_total_behavior [5] [0, 1]).1 (Or.inl (by decide)),
   ((cohens_d_total_behavior [0, 0] [1, 3]).2 1 0 2
      (by norm_num [pooledVar, seriesVar])
      (by norm_num [seriesMean]) (by norm_num [seriesMean])).2 (by norm_num)⟩

/-! Section: Theorems about the analyzers (claims C3, C8) -/

/-- **C3** (amended): `FactorialAnalyzer.analyze_with_category_as_block`
catches every model-fit failure and, in both the success and the failure
branch, returns main-effect and block-effect summaries computed directly from
group means; on failure the error string is recorded and no model is
attached, but the call itself always returns.  (The corresponding RCBD entry
point does not share this property — see
`perform_rcbd_analysis_propagates_fit_failure`.) -/
theorem analyze_with_category_as_block_degrades_to_group_means
    (fit : Except String FittedModel) (df : List AnalysisRow) :
    (analyze_with_category_as_block fit df).main_effects = analyze_main_effects df
    ∧ (analyze_with_category_as_block fit df).block_effects = analyze_block_effects df
    ∧ (∀ e, fit = .error e →
        (analyze_with_category_as_block fit df).model = none
        ∧ (analyze_with_category_as_block fit df).error = some e) := by
  cases fit with
  | ok m => exact ⟨rfl, rfl, fun e he => by cases he⟩
  | error e =>
    refine ⟨rfl, rfl, fun e' he' => ?_⟩
    cases he'
    exact ⟨rfl, rfl⟩

/-- Witness for `analyze_with_category_as_block_degrades_to_group_means` at a
concrete failed fit over a one-row frame. -/
theorem analyze_with_category_as_block_degrades_witness :
    (analyze_with_category_as_block (Except.error "LinAlgError: singular matrix")
        [⟨"인성", "korean", "gpt-4o-mini", "no_role", "low", 9/10⟩]).model = none
    ∧ (analyze_with_category_as_block (Except.error "LinAlgError: singular matrix")
        [⟨"인성", "korean", "gpt-4o-mini", "no_role", "low", 9/10⟩]).error
        = some "LinAlgError: singular matrix" :=
  (analyze_with_category_as_block_degrades_to_group_means
      (Except.error "LinAlgError: singular matrix")
      [⟨"인성", "korean", "gpt-4o-mini", "no_role", "low", 9/10⟩]).2.2
    "LinAlgError: singular matrix" rfl

/-- **C3** (counterexample): the RCBD analyzer entry point
`RCBDAnalyzer.perform_rcbd_analysis` has no `try/except` around its model
fit; a model-fit failure (e.g. a singular design matrix) propagates to the
caller and no group-mean summaries are returned, contradicting the claim for
"every analysis entry point". -/
theorem perform_rcbd_analysis_propagates_fit_failure :
    perform_rcbd_analysis (Except.error "LinAlgError: singular design matrix")
        [⟨"인성", "positive", 9/10⟩]
      = Except.error "LinAlgError: singular design matrix" := rfl

/-- **C8**: when the injected similarity backend fails on a pair, the unit's
similarity is indeed computed as `None` (never a default number) — but the
very next logging statement formats that `None` with `:.4f`, raising an
uncaught `TypeError` that aborts the whole analysis loop: the failure reason
is never attached to the unit's record and the remaining units are never
processed.  Evaluated here on two units with a failing backend: the call
returns the `TypeError` instead of a scored list. -/
theorem analyze_consistency_aborts_on_backend_failure :
    compute_bert_multilingual_similarity
        (fun _ _ => Except.error "BERTScore backend failure") ["resp a", "resp b"]
      = none
    ∧ analyze_consistency_for_experiment
        (fun _ _ => Except.error "BERTScore backend failure")
        [⟨1, "인성", ["resp a", "resp b"]⟩, ⟨2, "창의성", ["resp c", "resp d"]⟩]
      = Except.error "TypeError: unsupported format string passed to NoneType.__format__" :=
  ⟨rfl, rfl⟩

/-! Section: Theorems about per-unit scoring (claim C1) -/

/-- With a backend that never fails, the similarity loop returns exactly one
score per pair, in order. -/
lemma simsOf_ok (f : String → String → ℚ) :
    ∀ ps : List (String × String),
      simsOf (fun a b => Except.ok (f a b)) ps
        = Except.ok (ps.map fun p => f p.2 p.1) := by
  intro ps
  induction ps with
  | nil => rfl
  | cons p rest ih =>
    obtain ⟨a, b⟩ := p
    simp [simsOf, ih]

/-- `itertools.combinations(l, 2)` yields exactly `C(|l|, 2)` pairs. -/
lemma pairsOf_length {α : Type} : ∀ l : List α,
    (pairsOf l).length = l.length.choose 2 := by
  intro l
  induction l with
  | nil => rfl
  | cons x xs ih =>
    simp only [pairsOf, List.length_append, List.length_map, ih, List.length_cons]
    rw [show (xs.length + 1).choose 2 = xs.length.choose 1 + xs.length.choose 2 from
      Nat.choose_succ_succ xs.length 1, Nat.choose_one_right]

/-- **C1**: for fewer than two responses the unit score is `None` (undefined,
not zero); for `n ≥ 2` responses every response is normalized with
`clean_text` and the score is the arithmetic mean of the backend similarity
over all `C(n, 2)` unordered pairs of cleaned responses (so exactly 3 pairs
when `n = 3`, by `Nat.choose 3 2 = 3`). -/
theorem score_unit_null_or_mean (f : String → String → ℚ) (rs : List String) :
    (rs.length < 2 →
      compute_bert_multilingual_similarity (fun a b => Except.ok (f a b)) rs = none)
    ∧ (2 ≤ rs.length →
      compute_bert_multilingual_similarity (fun a b => Except.ok (f a b)) rs
        = some (((pairsOf (rs.map clean_text)).map fun p => f p.2 p.1).sum
            / (rs.length.choose 2 : ℚ))
      ∧ (pairsOf (rs.map clean_text)).length = rs.length.choose 2) := by
  constructor
  · intro h
    unfold compute_bert_multilingual_similarity
    rw [if_pos h]
  · intro h
    have hlen : (pairsOf (rs.map clean_text)).length = rs.length.choose 2 := by
      rw [pairsOf_length, List.length_map]
    refine ⟨?_, hlen⟩
    unfold compute_bert_multilingual_similarity
    rw [if_neg (not_lt.mpr h), simsOf_ok]
    dsimp only
    rw [List.length_map, hlen]

/-- Witness for `score_unit_null_or_mean`: a constant backend at a
one-response unit (null) and a three-response unit (mean over 3 pairs). -/
theorem score_unit_null_or_mean_witness :
    compute_bert_multilingual_similarity
        (fun a b => Except.ok ((fun _ _ => (1/2 : ℚ)) a b)) ["solo"] = none
    ∧ (compute_bert_multilingual_similarity
          (fun a b => Except.ok ((fun _ _ => (1/2 : ℚ)) a b)) ["a", "b", "c"]
        = some (((pairsOf ((["a", "b", "c"] : List String).map clean_text)).map
              fun p => (fun _ _ => (1/2 : ℚ)) p.2 p.1).sum
            / ((["a", "b", "c"] : List String).length.choose 2 : ℚ))
      ∧ (pairsOf ((["a", "b", "c"] : List String).map clean_text)).length
          = (["a", "b", "c"] : List String).length.choose 2) :=
  ⟨(score_unit_null_or_mean (fun _ _ => (1/2 : ℚ)) ["solo"]).1 (by decide),
   (score_unit_null_or_mean (fun _ _ => (1/2 : ℚ)) ["a", "b", "c"]).2 (by decide)⟩

/-! Section: Idempotence analysis of the text normalizer (claim C4)

The second `re.sub` pass (list numbering) can delete text between single
asterisks and thereby create a fresh `**...**` emphasis pair that only a
second `clean_text` pass would strip, so idempotence can only hold when the
first pass leaves no `**` in its output.  The lemmas below establish that
every other pass is already at a fixed point on `clean_text` output:
whitespace is collapsed and stripped, and no digit run is left standing
immediately before a dot. -/

/-- Detector for an adjacent `**` pair (what the emphasis regex needs in
order to match anywhere). -/
def hasDoubleStar : List Char → Bool
  | [] => false
  | [_] => false
  | c1 :: c2 :: rest => if c1 = '*' ∧ c2 = '*' then true else hasDoubleStar (c2 :: rest)

/-- Adjacency invariant: no digit immediately followed by a dot (so that
`\d+\.` cannot match anywhere). -/
def noDigitDot (a b : Char) : Prop := ¬(a.isDigit = true ∧ b = '.')

/-- Adjacency invariant: no two adjacent whitespace characters. -/
def noTwoWs (a b : Char) : Prop := ¬(wsChar a = true ∧ wsChar b = true)

/-- Every character that `collapseWs` emits is a space or a non-whitespace
character of its input. -/
lemma collapseWs_mem : ∀ (b : Bool) (l : List Char) (c : Char),
    c ∈ collapseWs b l → c = ' ' ∨ (c ∈ l ∧ wsChar c = false) := by
  intro b l
  induction l generalizing b with
  | nil => intro c h; cases b <;> simp [collapseWs] at h
  | cons x rest ih =>
    intro c h
    cases hx : wsChar x with
    | false =>
      simp only [collapseWs, hx] at h
      rcases List.mem_cons.mp h with rfl | h'
      · exact Or.inr ⟨List.mem_cons_self .., hx⟩
      · rcases ih false c h' with h1 | ⟨h2, h3⟩
        · exact Or.inl h1
        · exact Or.inr ⟨List.mem_cons_of_mem x h2, h3⟩
    | true =>
      cases b with
      | true =>
        simp only [collapseWs, hx] at h
        rcases ih true c h with h1 | ⟨h2, h3⟩
        · exact Or.inl h1
        · exact Or.inr ⟨List.mem_cons_of_mem x h2, h3⟩
      | false =>
        simp only [collapseWs, hx] at h
        rcases List.mem_cons.mp h with rfl | h'
        · exact Or.inl rfl
        · rcases ih true c h' with h1 | ⟨h2, h3⟩
          · exact Or.inl h1
          · exact Or.inr ⟨List.mem_cons_of_mem x h2, h3⟩

/-- After a space has just been emitted, the next emitted character is never
whitespace (the scanner is still consuming the same run). -/
lemma collapseWs_head_true : ∀ (l : List Char) (x : Char),
    (collapseWs true l).head? = some x → wsChar x = false := by
  intro l
  induction l with
  | nil => intro x h; simp [collapseWs] at h
  | cons c rest ih =>
    intro x h
    cases hc : wsChar c with
    | true => simp only [collapseWs, hc] at h; exact ih x h
    | false =>
      simp only [collapseWs, hc] at h
      simp only [List.head?_cons, Option.some.injEq] at h
      rw [← h]; exact hc

/-- In the initial state the first emitted character is a space or the first
input character. -/
lemma collapseWs_head_false : ∀ (l : List Char) (x : Char),
    (collapseWs false l).head? = some x → x = ' ' ∨ l.head? = some x := by
  intro l x h
  cases l with
  | nil => simp [collapseWs] at h
  | cons c rest =>
    cases hc : wsChar c with
    | true =>
      simp only [collapseWs, hc] at h
      simp only [List.head?_cons, Option.some.injEq] at h
      exact Or.inl h.symm
    | false =>
      simp only [collapseWs, hc] at h
      simp only [List.head?_cons, Option.some.injEq] at h
      exact Or.inr (by rw [List.head?_cons, h])

/-- Output of the whitespace collapser never has two adjacent whitespace
characters. -/
lemma collapseWs_chain_noTwoWs : ∀ (b : Bool) (l : List Char),
    List.Chain' noTwoWs (collapseWs b l) := by
  intro b l
  induction l generalizing b with
  | nil => cases b <;> simp [collapseWs]
  | cons c rest ih =>
    cases hc : wsChar c with
    | false =>
      simp only [collapseWs, hc]
      rw [List.chain'_cons']
      refine ⟨?_, ih false⟩
      intro y _ hcontra
      rw [hc] at hcontra
      exact absurd hcontra.1 Bool.false_ne_true
    | true =>
      cases b with
      | true => simp only [collapseWs, hc]; exact ih true
      | false =>
        simp only [collapseWs, hc]
        rw [List.chain'_cons']
        refine ⟨?_, ih true⟩
        intro y hy hcontra
        have hns := collapseWs_head_true rest y (Option.mem_def.mp hy)
        exact absurd (hns.symm.trans hcontra.2) Bool.false_ne_true

/-- The whitespace collapser preserves the no-digit-before-dot invariant. -/
lemma collapseWs_chain_noDigitDot : ∀ (b : Bool) (l : List Char),
    List.Chain' noDigitDot l → List.Chain' noDigitDot (collapseWs b l) := by
  intro b l
  induction l generalizing b with
  | nil => intro _; cases b <;> simp [collapseWs]
  | cons c rest ih =>
    intro hch
    have htail : List.Chain' noDigitDot rest := hch.tail
    cases hc : wsChar c with
    | true =>
      cases b with
      | true => simp only [collapseWs, hc]; exact ih true htail
      | false =>
        simp only [collapseWs, hc]
        rw [List.chain'_cons']
        refine ⟨?_, ih true htail⟩
        intro y _ hcontra
        exact absurd hcontra.1 (by decide)
    | false =>
      simp only [collapseWs, hc]
      rw [List.chain'_cons']
      refine ⟨?_, ih false htail⟩
      intro y hy
      rcases collapseWs_head_false rest y (Option.mem_def.mp hy) with rfl | hy2
      · intro hcontra
        exact absurd hcontra.2 (by decide)
      · exact (List.chain'_cons'.mp hch).1 y (Option.mem_def.mpr hy2)

/-- A list of digits satisfies the no-digit-before-dot invariant (a dot is
not a digit). -/
lemma chain'_noDigitDot_of_digits : ∀ m : List Char,
    (∀ c ∈ m, c.isDigit = true) → List.Chain' noDigitDot m := by
  intro m
  induction m with
  | nil => intro _; simp
  | cons x rest ih =>
    intro hall
    rw [List.chain'_cons']
    refine ⟨?_, ih fun c hc => hall c (List.mem_cons_of_mem x hc)⟩
    intro y hy hcontra
    have hd := hall y (List.mem_cons_of_mem x (List.mem_of_mem_head? hy))
    rw [hcontra.2] at hd
    exact absurd hd (by decide)

/-- The digit-list scanner only ever emits text in which no digit stands
immediately before a dot (such a position would have been a match).
Length-bounded formulation covering both mutually recursive scanners. -/
lemma digits_chain_aux : ∀ n : ℕ,
    (∀ (pend l : List Char), l.length ≤ n → (∀ c ∈ pend, c.isDigit = true) →
      List.Chain' noDigitDot (digitsA pend l))
    ∧ (∀ l : List Char, l.length ≤ n → List.Chain' noDigitDot (digitsSkipWs l)) := by
  intro n
  induction n with
  | zero =>
    refine ⟨fun pend l hl hp => ?_, fun l hl => ?_⟩
    · obtain rfl := List.length_eq_zero.mp (Nat.le_zero.mp hl)
      rw [digitsA]
      exact chain'_noDigitDot_of_digits _ fun c hc => hp c (List.mem_reverse.mp hc)
    · obtain rfl := List.length_eq_zero.mp (Nat.le_zero.mp hl)
      rw [digitsSkipWs]
      simp
  | succ n ih =>
    refine ⟨fun pend l hl hp => ?_, fun l hl => ?_⟩
    · cases l with
      | nil =>
        rw [digitsA]
        exact chain'_noDigitDot_of_digits _ fun c hc => hp c (List.mem_reverse.mp hc)
      | cons c rest =>
        have hrest : rest.length ≤ n := by
          simp only [List.length_cons] at hl; omega
        rw [digitsA]
        by_cases hd : c.isDigit = true
        · rw [if_pos hd]
          refine ih.1 (c :: pend) rest hrest ?_
          intro x hx
          rcases List.mem_cons.mp hx with rfl | hx'
          · exact hd
          · exact hp x hx'
        · rw [if_neg hd]
          by_cases hpe : pend.isEmpty = true
          · rw [if_pos hpe]
            rw [List.chain'_cons']
            refine ⟨fun y _ hcontra => hd hcontra.1, ih.1 [] rest hrest (by simp)⟩
          · rw [if_neg hpe]
            by_cases hdot : c = '.'
            · rw [if_pos hdot]
              exact ih.2 rest hrest
            · rw [if_neg hdot]
              rw [List.chain'_append]
              refine ⟨chain'_noDigitDot_of_digits _
                  (fun x hx => hp x (List.mem_reverse.mp hx)), ?_, ?_⟩
              · rw [List.chain'_cons']
                exact ⟨fun y _ hcontra => hd hcontra.1, ih.1 [] rest hrest (by simp)⟩
              · intro x _ y hy hcontra
                have hyc : y = c := by
                  simp only [List.head?_cons, Option.mem_def, Option.some.injEq] at hy
                  exact hy.symm
                exact hdot (hyc.symm.trans hcontra.2)
    · cases l with
      | nil =>
        rw [digitsSkipWs]
        simp
      | cons c rest =>
        have hrest : rest.length ≤ n := by
          simp only [List.length_cons] at hl; omega
        rw [digitsSkipWs]
        by_cases hws : wsChar c = true
        · rw [if_pos hws]
          exact ih.2 rest hrest
        · rw [if_neg hws]
          by_cases hd : c.isDigit = true
          · rw [if_pos hd]
            refine ih.1 [c] rest hrest ?_
            intro x hx
            rw [List.mem_singleton.mp hx]
            exact hd
          · rw [if_neg hd]
            rw [List.chain'_cons']
            exact ⟨fun y _ hcontra => hd hcontra.1, ih.1 [] rest hrest (by simp)⟩

/-- Output of the digit-list scanner satisfies the no-digit-before-dot
invariant. -/
lemma digitsA_chain : ∀ l : List Char, List.Chain' noDigitDot (digitsA [] l) :=
  fun l => (digits_chain_aux l.length).1 [] l le_rfl (by simp)

/-- On text satisfying the no-digit-before-dot invariant the digit-list
scanner changes nothing: there is no position where `\d+\.` could match. -/
lemma digitsA_id : ∀ (l pend : List Char), (∀ c ∈ pend, c.isDigit = true) →
    List.Chain' noDigitDot (pend.reverse ++ l) →
    digitsA pend l = pend.reverse ++ l := by
  intro l
  induction l with
  | nil => intro pend _ _; rw [digitsA, List.append_nil]
  | cons c rest ih =>
    intro pend hp hch
    rw [digitsA]
    by_cases hd : c.isDigit = true
    · rw [if_pos hd]
      have hlist : (c :: pend).reverse ++ rest = pend.reverse ++ (c :: rest) := by
        rw [List.reverse_cons, List.append_assoc, List.singleton_append]
      have hr := ih (c :: pend)
        (fun x hx => by
          rcases List.mem_cons.mp hx with rfl | hx'
          · exact hd
          · exact hp x hx')
        (by rw [hlist]; exact hch)
      rw [hr, hlist]
    · rw [if_neg hd]
      by_cases hpe : pend.isEmpty = true
      · cases pend with
        | cons p ps => simp at hpe
        | nil =>
          rw [if_pos hpe]
          have hchtail : List.Chain' noDigitDot rest := by
            simp only [List.reverse_nil, List.nil_append] at hch
            exact hch.tail
          have hr := ih [] (by simp) (by simpa using hchtail)
          simp only [List.reverse_nil, List.nil_append] at hr
          rw [hr]
          simp
      · rw [if_neg hpe]
        by_cases hdot : c = '.'
        · exfalso
          obtain ⟨p, ps, rfl⟩ : ∃ p ps, pend = p :: ps := by
            cases pend with
            | nil => simp at hpe
            | cons p ps => exact ⟨p, ps, rfl⟩
          have hlink := (List.chain'_append.mp hch).2.2
          have hplast : p ∈ ((p :: ps).reverse).getLast? := by
            rw [List.getLast?_reverse]
            simp
          have hnd := hlink p hplast c (by simp)
          exact hnd ⟨hp p (List.mem_cons_self ..), hdot⟩
        · rw [if_neg hdot]
          have hchtail : List.Chain' noDigitDot rest :=
            (List.chain'_append.mp hch).2.1.tail
          have hr := ih [] (by simp) (by simpa using hchtail)
          simp only [List.reverse_nil, List.nil_append] at hr
          rw [hr]

/-- Chains survive dropping a prefix. -/
lemma chain'_dropWhile {R : Char → Char → Prop} (p : Char → Bool) :
    ∀ l : List Char, List.Chain' R l → List.Chain' R (l.dropWhile p) := by
  intro l
  induction l with
  | nil => intro h; simp
  | cons c rest ih =>
    intro h
    rw [List.dropWhile_cons]
    by_cases hc : p c = true
    · rw [if_pos hc]; exact ih h.tail
    · rw [if_neg hc]; exact h

/-- Chains survive dropping a suffix (right strip). -/
lemma chain'_rstrip {R : Char → Char → Prop} (l : List Char)
    (h : List.Chain' R l) : List.Chain' R (rstrip l) := by
  unfold rstrip
  rw [List.chain'_reverse]
  exact chain'_dropWhile wsChar l.reverse (List.chain'_reverse.mpr h)

/-- Membership transport out of a right strip. -/
lemma mem_rstrip {l : List Char} {c : Char} (h : c ∈ rstrip l) : c ∈ l := by
  unfold rstrip at h
  exact List.mem_reverse.mp ((List.dropWhile_sublist wsChar).subset (List.mem_reverse.mp h))

/-- Membership transport out of a left strip. -/
lemma mem_lstrip {l : List Char} {c : Char} (h : c ∈ lstrip l) : c ∈ l :=
  (List.dropWhile_sublist wsChar).subset h

/-- The head surviving a left strip is not whitespace. -/
lemma lstrip_head (w : List Char) (x : Char) (h : (lstrip w).head? = some x) :
    wsChar x = false := by
  have hmatch := List.head?_dropWhile_not wsChar w
  rw [show lstrip w = w.dropWhile wsChar from rfl] at h
  rw [h] at hmatch
  exact hmatch

/-- Dropping a prefix twice equals dropping it once. -/
lemma dropWhile_dropWhile (p : Char → Bool) : ∀ l : List Char,
    (l.dropWhile p).dropWhile p = l.dropWhile p := by
  intro l
  induction l with
  | nil => rfl
  | cons c rest ih =>
    rw [List.dropWhile_cons]
    by_cases hc : p c = true
    · rw [if_pos hc]; exact ih
    · rw [if_neg hc, List.dropWhile_cons, if_neg hc]

/-- Left strip is idempotent. -/
lemma lstrip_idem (l : List Char) : lstrip (lstrip l) = lstrip l :=
  dropWhile_dropWhile wsChar l

/-- Right strip is idempotent. -/
lemma rstrip_idem (l : List Char) : rstrip (rstrip l) = rstrip l := by
  unfold rstrip
  rw [List.reverse_reverse, dropWhile_dropWhile]

/-- The head surviving a right strip was already the head. -/
lemma head?_rstrip (l : List Char) (x : Char) (h : (rstrip l).head? = some x) :
    l.head? = some x := by
  unfold rstrip at h
  rw [List.head?_reverse] at h
  have hsplit := List.takeWhile_append_dropWhile wsChar l.reverse
  have hlast : l.reverse.getLast? = some x := by
    rw [← hsplit, List.getLast?_append, h]
    rfl
  rw [List.getLast?_reverse] at hlast
  exact hlast

/-- Right strip does not disturb an already left-stripped list. -/
lemma lstrip_rstrip_fix (l : List Char)
    (hhead : ∀ x, l.head? = some x → wsChar x = false) :
    lstrip (rstrip l) = rstrip l := by
  cases h : rstrip l with
  | nil => rfl
  | cons d t =>
    have hd : wsChar d = false :=
      hhead d (head?_rstrip l d (by rw [h]; rfl))
    show (d :: t).dropWhile wsChar = d :: t
    rw [List.dropWhile_cons, if_neg (by rw [hd]; exact Bool.false_ne_true)]

/-- The newline replacement is the identity on newline-free text. -/
lemma replaceNewlines_id (l : List Char) (h : '\n' ∉ l) :
    replaceNewlines l = l := by
  unfold replaceNewlines
  conv_rhs => rw [← List.map_id l]
  apply List.map_congr_left
  intro c hc
  have hne : ¬ c = '\n' := fun hcc => h (hcc ▸ hc)
  simp [hne]

/-- The emphasis scanner is the identity when no adjacent `**` occurs. -/
lemma boldOut_id : ∀ l : List Char, hasDoubleStar l = false → boldOut l = l := by
  intro l
  induction l with
  | nil => intro _; rfl
  | cons c rest ih =>
    intro h
    cases rest with
    | nil => rfl
    | cons c2 rest2 =>
      rw [hasDoubleStar] at h
      by_cases hstar : c = '*' ∧ c2 = '*'
      · rw [if_pos hstar] at h
        exact absurd h (by simp)
      · rw [if_neg hstar] at h
        rw [boldOut, if_neg hstar, ih h]

/-- The whitespace collapser is the identity on text whose whitespace is
already collapsed: no two adjacent whitespace characters, every whitespace
character a plain space, and (when a run is already open) a non-whitespace
head. -/
lemma collapseWs_id : ∀ (l : List Char) (b : Bool),
    List.Chain' noTwoWs l → (∀ c ∈ l, wsChar c = true → c = ' ') →
    (b = true → ∀ x ∈ l.head?, wsChar x = false) →
    collapseWs b l = l := by
  intro l
  induction l with
  | nil => intro b _ _ _; cases b <;> rfl
  | cons c rest ih =>
    intro b hch hsp hflag
    cases hc : wsChar c with
    | true =>
      cases b with
      | true =>
        exfalso
        have hff := hflag rfl c (by simp)
        rw [hc] at hff
        exact Bool.false_ne_true hff.symm
      | false =>
        simp only [collapseWs, hc]
        have hcsp : c = ' ' := hsp c (by simp) hc
        have hresthead : ∀ x ∈ rest.head?, wsChar x = false := by
          intro x hx
          have hnn := (List.chain'_cons'.mp hch).1 x hx
          cases hxw : wsChar x with
          | false => rfl
          | true => exact absurd ⟨hc, hxw⟩ hnn
        have hrest : collapseWs true rest = rest :=
          ih true hch.tail (fun x hx hw => hsp x (List.mem_cons_of_mem c hx) hw)
            (fun _ => hresthead)
        rw [hrest, hcsp]
    | false =>
      simp only [collapseWs, hc]
      rw [ih false hch.tail (fun x hx hw => hsp x (List.mem_cons_of_mem c hx) hw)
        (fun hf => absurd hf (by simp))]

/-- Main idempotence engine: `cleanChars` is a fixed point on every output of
its own in which no adjacent `**` pair is left.  Each pass is shown to be the
identity there: the output has no newline, whitespace is collapsed to single
spaces and stripped at both ends, and no digit run stands before a dot. -/
theorem cleanChars_fixpoint (x : List Char)
    (h : hasDoubleStar (cleanChars x) = false) :
    cleanChars (cleanChars x) = cleanChars x := by
  have hW2w : ∀ c ∈ collapseWs false (digitsA [] (boldOut (replaceNewlines x))),
      wsChar c = true → c = ' ' := by
    intro c hc hw
    rcases collapseWs_mem false _ c hc with hsp | ⟨_, hws⟩
    · exact hsp
    · rw [hw] at hws
      exact absurd hws (by simp)
  have hW2y : ∀ c ∈ cleanChars x, wsChar c = true → c = ' ' := by
    intro c hc hw
    exact hW2w c (mem_lstrip (mem_rstrip hc)) hw
  have hNoNl : '\n' ∉ cleanChars x := by
    intro hmem
    have := hW2y '\n' hmem (by decide)
    exact absurd this (by decide)
  have hchainWS : List.Chain' noTwoWs (cleanChars x) :=
    chain'_rstrip _ (chain'_dropWhile wsChar _
      (collapseWs_chain_noTwoWs false (digitsA [] (boldOut (replaceNewlines x)))))
  have hchainDD : List.Chain' noDigitDot (cleanChars x) :=
    chain'_rstrip _ (chain'_dropWhile wsChar _
      (collapseWs_chain_noDigitDot false (digitsA [] (boldOut (replaceNewlines x)))
        (digitsA_chain (boldOut (replaceNewlines x)))))
  have s1 : replaceNewlines (cleanChars x) = cleanChars x :=
    replaceNewlines_id _ hNoNl
  have s2 : boldOut (cleanChars x) = cleanChars x := boldOut_id _ h
  have s3 : digitsA [] (cleanChars x) = cleanChars x := by
    have hr := digitsA_id (cleanChars x) [] (by simp) (by simpa using hchainDD)
    simpa using hr
  have s4 : collapseWs false (cleanChars x) = cleanChars x :=
    collapseWs_id _ false hchainWS hW2y (fun hf => absurd hf (by simp))
  have s5a : lstrip (cleanChars x) = cleanChars x := by
    show lstrip (rstrip (lstrip (collapseWs false
      (digitsA [] (boldOut (replaceNewlines x)))))) = _
    exact lstrip_rstrip_fix _ (lstrip_head _)
  have s5b : rstrip (cleanChars x) = cleanChars x := by
    show rstrip (rstrip (lstrip (collapseWs false
      (digitsA [] (boldOut (replaceNewlines x)))))) = _
    exact rstrip_idem _
  show rstrip (lstrip (collapseWs false (digitsA []
    (boldOut (replaceNewlines (cleanChars x)))))) = cleanChars x
  rw [s1, s2, s3, s4, s5a, s5b]

/-- **C4** (counterexample): `clean_text` is not idempotent.  On
`"*1. *bold*1. *"` the list-numbering pass deletes the two `"1. "` runs
standing between single asterisks, creating the fresh emphasis pair
`"**bold**"`, which only a second pass strips to `"bold"`. -/
theorem clean_text_not_idempotent :
    clean_text (clean_text "*1. *bold*1. *") ≠ clean_text "*1. *bold*1. *"
    ∧ clean_text "*1. *bold*1. *" = "**bold**"
    ∧ clean_text (clean_text "*1. *bold*1. *") = "bold" :=
  ⟨by decide, by decide, by decide⟩

/-- **C4** (amended): `clean_text` is idempotent on every input whose
normalized form contains no adjacent `**` pair (the only way a first pass can
leave work for a second one is by creating such a pair); in particular
normalization strips emphasis, list numbering, collapses whitespace runs and
trims, and applying it again to such output changes nothing. -/
theorem clean_text_idempotent_of_no_double_star (s : String)
    (h : hasDoubleStar (clean_text s).data = false) :
    clean_text (clean_text s) = clean_text s :=
  congrArg String.mk (cleanChars_fixpoint s.data h)

/-- Witness for `clean_text_idempotent_of_no_double_star` on the spec's own
example `"**Bold** 1. item\n\nmore"` (which normalizes to
`"Bold item more"`). -/
theorem clean_text_idempotent_witness :
    hasDoubleStar (clean_text "**Bold** 1. item\n\nmore").data = false
    ∧ clean_text (clean_text "**Bold** 1. item\n\nmore")
        = clean_text "**Bold** 1. item\n\nmore"
    ∧ clean_text "**Bold** 1. item\n\nmore" = "Bold item more" :=
  ⟨by decide, clean_text_idempotent_of_no_double_star _ (by decide), by decide⟩
